import Mathlib

/-!
Verification development for the progress-estimation code of this repository.

`src/src/comfyui.ts` contains two versions of the `ComfyUIClient` progress
tracker:

* a weighted tracker (first version, lines 57-273) without a monotonic floor
  and without ETA fields;
* a count-based tracker with ETA reporting and composite-id normalization
  (second version, lines 317-538).

The specification (`spec.md` §2, §9) states that the repository holds a third,
most refined version — weighted, with a monotonic `progressFloor` — and
describes that one; it is not among the sources.  Definitions below are either
translated from the second source version (namespace `ComfyUIClient`) or, where
the deciding code is the missing refined version, modelled from the spec
(namespace `SpecTracker`, each such definition marked `Modelled from the spec`).

JavaScript numbers are modelled by `ℚ` (with explicit `jsRound` for
`Math.round`) and integer-valued results by `ℤ`; callbacks are modelled by
returning the emitted tuples instead of pushing them.
-/

/-- `Math.round` on a real (here rational) argument: round half toward +∞. -/
def jsRound (q : ℚ) : ℤ := ⌊q + 1/2⌋

/-- `NODE_STAGES` table (`src/src/comfyui.ts`, lines 300-315; the first version's
table at lines 19-34 is identical). -/
def NODE_STAGES : String → Option String
  | "UNETLoader" => some "Loading Flux model"
  | "DualCLIPLoader" => some "Loading CLIP"
  | "VAELoader" => some "Loading VAE"
  | "CLIPTextEncode" => some "Encoding prompt"
  | "KSampler" => some "Generating image"
  | "VAEDecode" => some "Decoding image"
  | "RMBG" => some "Removing background"
  | "LoadTripoSRModel" => some "Loading TripoSR"
  | "ImageTo3DMesh" => some "Creating 3D mesh"
  | "RenderMesh8Directions" => some "Rendering 8 directions"
  | "ControlNetLoader" => some "Loading ControlNet"
  | "ControlNetApplyAdvanced" => some "Applying ControlNet"
  | "Canny" => some "Detecting edges"
  | "SaveImage" => some "Saving image"
  | _ => none

/-- `NODE_WEIGHTS` table (`src/src/comfyui.ts`, lines 37-55). -/
def NODE_WEIGHTS : String → Option ℕ
  | "UNETLoader" => some 5
  | "DualCLIPLoader" => some 2
  | "VAELoader" => some 1
  | "CLIPTextEncode" => some 1
  | "EmptyLatentImage" => some 1
  | "FluxGuidance" => some 1
  | "KSampler" => some 15
  | "VAEDecode" => some 2
  | "RMBG" => some 5
  | "LoadTripoSRModel" => some 5
  | "ImageTo3DMesh" => some 25
  | "RenderMesh8Directions" => some 10
  | "ControlNetLoader" => some 2
  | "ControlNetApplyAdvanced" => some 3
  | "Canny" => some 2
  | "VAEEncode" => some 2
  | "SaveImage" => some 1
  | _ => none

/-- `NODE_WEIGHTS[t] || 1`: unknown type tags default to weight 1. -/
def weightFor (t : String) : ℕ := (NODE_WEIGHTS t).getD 1

/-- `nodeId.split(':')[0]`: the segment of the string before the first `:`
(the whole string when no `:` occurs), `src/src/comfyui.ts` lines 369, 390, 405. -/
def normalizeId (nodeId : String) : String :=
  String.mk (nodeId.data.takeWhile (fun c => c ≠ ':'))

/-- `NODE_STAGES[classType] || classType || 'Processing...'`
(`src/src/comfyui.ts` line 437). -/
def stageFor (classType : String) : String :=
  match NODE_STAGES classType with
  | some s => s
  | none => if classType = "" then "Processing..." else classType

namespace ComfyUIClient

/-!
Shallow embedding of the second `ComfyUIClient` version in `src/src/comfyui.ts`
(lines 317-538): the count-based tracker that reports elapsed/ETA fields.
`ws`, `clientId` and the HTTP plumbing carry no progress logic and are omitted;
the `onProgress` callback is modelled by returning the emitted tuple
(`none` when the handler does not emit).  `workflow` keeps, per node id, the
`class_type` field (the `inputs` record is never read by the tracking code).
Wall-clock instants (`Date.now()`, `startTime`) are integers in milliseconds,
passed explicitly as `now`.
-/

/-- Mutable fields of the client that the tracking code reads or writes. -/
structure State where
  promptId : Option String
  workflow : Option (List (String × String))
  executedNodes : Finset String
  totalNodes : ℕ
  startTime : ℤ
deriving DecidableEq

/-- The `ProgressInfo` tuple (`src/src/comfyui.ts` lines 280-286). -/
structure ProgressInfo where
  progress : ℤ
  stage : String
  elapsedSeconds : ℤ
  estimatedTotalSeconds : ℤ
  estimatedRemainingSeconds : ℤ
deriving DecidableEq

/-- `reportProgress` (`src/src/comfyui.ts` lines 443-462). -/
def reportProgress (st : State) (progress : ℤ) (stage : String) (now : ℤ) :
    ProgressInfo :=
  let elapsedSeconds := jsRound (((now - st.startTime : ℤ) : ℚ) / 1000)
  if 0 < progress ∧ progress < 100 then
    let estimatedTotalSeconds := jsRound ((elapsedSeconds : ℚ) / (progress : ℚ) * 100)
    { progress := progress, stage := stage, elapsedSeconds := elapsedSeconds,
      estimatedTotalSeconds := estimatedTotalSeconds,
      estimatedRemainingSeconds := max 0 (estimatedTotalSeconds - elapsedSeconds) }
  else
    { progress := progress, stage := stage, elapsedSeconds := elapsedSeconds,
      estimatedTotalSeconds := 0, estimatedRemainingSeconds := 0 }

/-- `getNodeClassType` (`src/src/comfyui.ts` lines 366-371):
`this.workflow[baseId]?.class_type || ''`. -/
def getNodeClassType (st : State) (nodeId : String) : String :=
  match st.workflow with
  | none => ""
  | some w => (w.lookup (normalizeId nodeId)).getD ""

/-- `updateProgress` (`src/src/comfyui.ts` lines 431-441). -/
def updateProgress (st : State) (lastNodeId : Option String) (now : ℤ) :
    ProgressInfo :=
  let progress := min 99 (jsRound ((st.executedNodes.card : ℚ) / (st.totalNodes : ℚ) * 100))
  let stage :=
    match lastNodeId with
    | none => "Processing..."
    | some nid => stageFor (getNodeClassType st nid)
  reportProgress st progress stage now

/-- The parsed WebSocket messages dispatched by `handleMessage`
(`src/src/comfyui.ts` lines 373-429); malformed frames are dropped before this
point and carry no progress effect. -/
inductive Msg where
  | executionStart (promptId : String)
  | executionCached (promptId : String) (nodes : List String)
  | executing (promptId : String) (node : Option String)
  | executed (promptId : String) (node : Option String)
  | progress (promptId : String) (value mx : ℤ)
  | executionError (promptId : String)
deriving DecidableEq

/-- `handleMessage` (`src/src/comfyui.ts` lines 373-429); the second component
is the tuple pushed to `onProgress`, if any. -/
def handleMessage (st : State) (msg : Msg) (now : ℤ) :
    State × Option ProgressInfo :=
  match msg with
  | .executionStart pid =>
    if st.promptId = some pid then
      let st1 := { st with executedNodes := ∅ }
      (st1, some (reportProgress st1 0 "Starting..." now))
    else (st, none)
  | .executionCached pid nodes =>
    if st.promptId = some pid then
      let st1 := { st with
        executedNodes := nodes.foldl (fun s n => insert (normalizeId n) s) st.executedNodes }
      (st1, some (updateProgress st1 none now))
    else (st, none)
  | .executing pid node =>
    if st.promptId = some pid ∧ node = none then
      (st, some (reportProgress st 100 "Complete" now))
    else (st, none)
  | .executed pid node =>
    match node with
    | some n =>
      if st.promptId = some pid ∧ n ≠ "" then
        let baseId := normalizeId n
        let st1 := { st with executedNodes := insert baseId st.executedNodes }
        (st1, some (updateProgress st1 (some baseId) now))
      else (st, none)
    | none => (st, none)
  | .progress pid value mx =>
    if st.promptId = some pid then
      let baseProgress := jsRound ((st.executedNodes.card : ℚ) / (st.totalNodes : ℚ) * 100)
      let stepP : ℚ := ((value : ℚ) / (mx : ℚ)) * (100 / (st.totalNodes : ℚ))
      let prog := min 99 (jsRound ((baseProgress : ℚ) + stepP))
      (st, some (reportProgress st prog
        ("Generating (step " ++ toString value ++ "/" ++ toString mx ++ ")") now))
    else (st, none)
  | .executionError _ => (st, none)

/-- `queuePrompt` (`src/src/comfyui.ts` lines 464-492), restricted to its state
effects: the HTTP POST is external; `newPromptId` is the id returned by the
server and `now` is `Date.now()` at the call. -/
def queuePrompt (st : State) (workflow : List (String × String)) (now : ℤ)
    (newPromptId : String) : State :=
  { promptId := some newPromptId, workflow := some workflow,
    executedNodes := ∅, totalNodes := workflow.length, startTime := now }

/-- Field values of a freshly constructed client (`src/src/comfyui.ts`
lines 317-329): no prompt, no workflow, empty sets and zero counters. -/
def initialState : State :=
  { promptId := none, workflow := none, executedNodes := ∅,
    totalNodes := 0, startTime := 0 }

/-- Is the message the terminal completion notification
(`executing` with `node === null`)? -/
def isTerminalMsg : Msg → Bool
  | .executing _ none => true
  | _ => false

/-- Sane step counters for a `progress` message (non-negative step, positive
total); vacuous for the other message kinds. -/
def stepPayloadOk : Msg → Prop
  | .progress _ value mx => 0 ≤ value ∧ 0 < mx
  | _ => True

instance (msg : Msg) : Decidable (stepPayloadOk msg) := by
  unfold stepPayloadOk
  cases msg <;> infer_instance

end ComfyUIClient

namespace SpecTracker

/-!
Modelled from the spec: the "most advanced variant" of the progress tracker —
weighted, with a monotonic `progressFloor` — which spec.md §2/§9 says exists in
the repository (as the third evolution of `ComfyUIClient`) but which is not
among the files under `src/`.  Every definition in this namespace follows the
spec's words (§3 Tracker State, §4.2 event table and progress policy, §7 zero
guards); the weight and stage tables are the configuration tables found in
`src/src/comfyui.ts`.
-/

/-- Modelled from the spec: Tracker State (spec.md §3).  `graph` maps node id to
type tag; `samplingType` is the type tag of the currently executing node, which
spec.md §4.2/§9 says the `StepProgress` handler should use.  Wall-clock values
are integer seconds. -/
structure TrackerState where
  submissionId : String
  graph : List (String × String)
  totalWeight : ℕ
  completedNodeIds : Finset String
  completedWeight : ℕ
  progressFloor : ℤ
  startTime : ℤ
  samplingType : String
deriving DecidableEq

/-- Type tag of a node id in the graph, normalizing composite ids (spec.md §4.1);
absent nodes give the empty tag. -/
def typeTagOf (g : List (String × String)) (nodeId : String) : String :=
  (g.lookup (normalizeId nodeId)).getD ""

/-- Weight of an already-normalized graph key. -/
def weightOfKey (g : List (String × String)) (key : String) : ℕ :=
  weightFor ((g.lookup key).getD "")

/-- Modelled from the spec: `weightOf(nodeId)` (spec.md §4.1) — normalize the
id, look up its type tag, default weight 1. -/
def weightOfNode (g : List (String × String)) (nodeId : String) : ℕ :=
  weightFor (typeTagOf g nodeId)

/-- Modelled from the spec: `stageLabelOf(nodeId)` (spec.md §4.1/§3). -/
def stageLabelOf (g : List (String × String)) (nodeId : String) : String :=
  stageFor (typeTagOf g nodeId)

/-- Modelled from the spec: `totalWeight = Σ weight(typeTag(n))` over the graph
(spec.md §4.1). -/
def graphTotalWeight (g : List (String × String)) : ℕ :=
  (g.map (fun p => weightFor p.2)).sum

/-- One emitted tuple (spec.md §4.2 output contract). -/
structure Emission where
  progressPercent : ℤ
  stageLabel : String
  elapsedSeconds : ℤ
  estimatedTotalSeconds : ℤ
  estimatedRemainingSeconds : ℤ
deriving DecidableEq

/-- Modelled from the spec: ETA computation (spec.md §4.2) from the final
emitted progress `p` and `elapsedSeconds`. -/
def etaFields (p elapsed : ℤ) : ℤ × ℤ :=
  if 0 < p ∧ p < 100 then
    let t := jsRound ((elapsed : ℚ) / (p : ℚ) * 100)
    (t, max 0 (t - elapsed))
  else (0, 0)

/-- Assemble the output tuple for a final progress value. -/
def mkEmission (p : ℤ) (stage : String) (elapsed : ℤ) : Emission :=
  { progressPercent := p, stageLabel := stage, elapsedSeconds := elapsed,
    estimatedTotalSeconds := (etaFields p elapsed).1,
    estimatedRemainingSeconds := (etaFields p elapsed).2 }

/-- Modelled from the spec: non-terminal clamping to `[0, 99]` (spec.md §4.2
progress calculation policy), after rounding to an integer percentage. -/
def clamp99 (q : ℚ) : ℤ := max 0 (min 99 (jsRound q))

/-- Modelled from the spec: overall progress with the §7 zero guards —
weighted ratio when `totalWeight > 0`, node-count ratio when the graph is
nonempty, else `0`.  `extra` is the in-progress fractional contribution of the
currently executing node (`0` for completed-node recomputations). -/
def progressCandidate (s : TrackerState) (extra : ℚ) : ℚ :=
  if 0 < s.totalWeight then
    ((s.completedWeight : ℚ) + extra) / (s.totalWeight : ℚ) * 100
  else if 0 < s.graph.length then
    (s.completedNodeIds.card : ℚ) / (s.graph.length : ℚ) * 100
  else 0

/-- Modelled from the spec: a non-terminal emission — clamp the candidate,
take the larger of it and `progressFloor`, emit, and record the emitted value
as the new floor (spec.md §4.2 monotonicity invariant). -/
def emitFloored (s : TrackerState) (candidate : ℚ) (stage : String) (now : ℤ) :
    TrackerState × Emission :=
  let p := max s.progressFloor (clamp99 candidate)
  ({ s with progressFloor := p }, mkEmission p stage (now - s.startTime))

/-- Modelled from the spec: the terminal emission — `(100%, "Complete")`
unconditionally, bypassing the floor comparison (spec.md §4.2). -/
def emitComplete (s : TrackerState) (now : ℤ) : TrackerState × Emission :=
  ({ s with progressFloor := 100 }, mkEmission 100 "Complete" (now - s.startTime))

/-- Modelled from the spec: the event kinds of spec.md §4.2, each carrying the
submission id used for the ignore-other-submissions check. -/
inductive Event where
  | executionStarted (sid : String)
  | nodesCached (sid : String) (nodes : List String)
  | nodeExecuted (sid : String) (node : String)
  | stepProgress (sid : String) (current mx : ℕ)
  | executionCompleted (sid : String)
  | executionError (sid : String) (message : String)
deriving DecidableEq

/-- Modelled from the spec: account one observed node id — normalize it and, if
not yet completed, mark it completed and add its weight (spec.md §4.2
`NodesCached`/`NodeExecuted` rows and idempotency policy). -/
def markCompleted (s : TrackerState) (nodeId : String) : TrackerState :=
  let n := normalizeId nodeId
  if n ∈ s.completedNodeIds then s
  else { s with completedNodeIds := insert n s.completedNodeIds,
                completedWeight := s.completedWeight + weightOfNode s.graph nodeId }

/-- Modelled from the spec: the `StepProgress` candidate —
`(completedWeight + weight(samplingType) × current/max) / totalWeight × 100`,
with the §4.2/§7 fallbacks (spec.md §4.2 `StepProgress` row). -/
def stepCandidate (s : TrackerState) (current mx : ℕ) : ℚ :=
  progressCandidate s ((weightFor s.samplingType : ℚ) * ((current : ℚ) / (mx : ℚ)))

/-- Modelled from the spec: the tracker's state-transition function over one
event (spec.md §4.2 event table); the second component is the emission pushed
to the registered callback, if any. -/
def processEvent (s : TrackerState) (e : Event) (now : ℤ) :
    TrackerState × Option Emission :=
  match e with
  | .executionStarted sid =>
    if sid = s.submissionId then
      let s1 := { s with completedNodeIds := ∅, completedWeight := 0,
                         progressFloor := 0, startTime := now }
      let r := emitFloored s1 0 "Starting..." now
      (r.1, some r.2)
    else (s, none)
  | .nodesCached sid nodes =>
    if sid = s.submissionId then
      let s1 := nodes.foldl markCompleted s
      let r := emitFloored s1 (progressCandidate s1 0) "Processing..." now
      (r.1, some r.2)
    else (s, none)
  | .nodeExecuted sid node =>
    if sid = s.submissionId then
      let s1 := markCompleted s node
      let r := emitFloored s1 (progressCandidate s1 0) (stageLabelOf s1.graph node) now
      (r.1, some r.2)
    else (s, none)
  | .stepProgress sid current mx =>
    if sid = s.submissionId then
      let r := emitFloored s (stepCandidate s current mx)
        ("Generating (step " ++ toString current ++ "/" ++ toString mx ++ ")") now
      (r.1, some r.2)
    else (s, none)
  | .executionCompleted sid =>
    if sid = s.submissionId then
      let r := emitComplete s now
      (r.1, some r.2)
    else (s, none)
  | .executionError _ _ => (s, none)

/-- Process a sequence of events, each paired with its delivery instant;
collect the emissions in delivery order. -/
def processEvents (s : TrackerState) : List (Event × ℤ) → TrackerState × List Emission
  | [] => (s, [])
  | te :: rest =>
    let r := processEvent s te.1 te.2
    let r2 := processEvents r.1 rest
    (r2.1, r.2.toList ++ r2.2)

/-- Is the event an `ExecutionStarted` reset? -/
def isStart : Event → Bool
  | .executionStarted _ => true
  | _ => false

/-- The example tracker instance used by the witnesses: the spec.md §8 scenario
graph (`A`, `C` of a weight-10 type, `B` of a weight-30 type does not exist in
the configured tables, so the nearest available types are used). -/
def sampleTracker : TrackerState :=
  { submissionId := "p1",
    graph := [("A", "KSampler"), ("B", "VAEDecode"), ("C", "SaveImage")],
    totalWeight := 18, completedNodeIds := ∅, completedWeight := 0,
    progressFloor := 0, startTime := 0, samplingType := "KSampler" }

/-- An event trace without any `ExecutionStarted` reset. -/
def sampleEvents : List (Event × ℤ) :=
  [(.nodesCached "p1" ["B"], 2), (.nodeExecuted "p1" "A", 3),
   (.stepProgress "p1" 5 10, 4), (.executionCompleted "p1", 9)]

end SpecTracker

/-- The tracker of an empty submitted graph, used by the C9 witness. -/
def SpecTracker.emptyTracker : SpecTracker.TrackerState :=
  { submissionId := "p2", graph := [], totalWeight := 0, completedNodeIds := ∅,
    completedWeight := 0, progressFloor := 0, startTime := 0, samplingType := "" }

theorem jsRound_nonneg {q : ℚ} (h : 0 ≤ q) : 0 ≤ jsRound q := by
  unfold jsRound
  exact Int.le_floor.2 (by push_cast; linarith)

theorem jsRound_eq {q : ℚ} {n : ℤ} (h1 : (n : ℚ) ≤ q + 1/2) (h2 : q + 1/2 < n + 1) :
    jsRound q = n := by
  unfold jsRound
  exact Int.floor_eq_iff.2 ⟨h1, h2⟩

namespace SpecTracker

theorem clamp99_nonneg (q : ℚ) : 0 ≤ clamp99 q := le_max_left _ _

theorem clamp99_le (q : ℚ) : clamp99 q ≤ 99 :=
  max_le (by norm_num) (min_le_left _ _)

theorem markCompleted_floor (s : TrackerState) (id : String) :
    (markCompleted s id).progressFloor = s.progressFloor := by
  by_cases h : normalizeId id ∈ s.completedNodeIds <;> simp [markCompleted, h]

theorem markCompleted_submissionId (s : TrackerState) (id : String) :
    (markCompleted s id).submissionId = s.submissionId := by
  by_cases h : normalizeId id ∈ s.completedNodeIds <;> simp [markCompleted, h]

theorem markCompleted_graph (s : TrackerState) (id : String) :
    (markCompleted s id).graph = s.graph := by
  by_cases h : normalizeId id ∈ s.completedNodeIds <;> simp [markCompleted, h]

theorem markCompleted_startTime (s : TrackerState) (id : String) :
    (markCompleted s id).startTime = s.startTime := by
  by_cases h : normalizeId id ∈ s.completedNodeIds <;> simp [markCompleted, h]

theorem foldl_markCompleted_floor (nodes : List String) (s : TrackerState) :
    (nodes.foldl markCompleted s).progressFloor = s.progressFloor := by
  induction nodes generalizing s with
  | nil => rfl
  | cons a t ih => rw [List.foldl_cons, ih, markCompleted_floor]

theorem processEvent_floor_mono (s : TrackerState) (e : Event) (now : ℤ)
    (hs : isStart e = false) (h100 : s.progressFloor ≤ 100) :
    s.progressFloor ≤ (processEvent s e now).1.progressFloor := by
  cases e with
  | executionStarted sid => simp [isStart] at hs
  | nodesCached sid nodes =>
    by_cases hc : sid = s.submissionId <;>
      simp only [processEvent, hc, if_true, if_false, if_pos, if_neg, emitFloored,
        foldl_markCompleted_floor, reduceIte, le_refl]
    · exact le_max_left _ _
  | nodeExecuted sid node =>
    by_cases hc : sid = s.submissionId <;>
      simp only [processEvent, hc, emitFloored, markCompleted_floor, reduceIte, le_refl]
    · exact le_max_left _ _
  | stepProgress sid current mx =>
    by_cases hc : sid = s.submissionId <;>
      simp only [processEvent, hc, emitFloored, reduceIte, le_refl]
    · exact le_max_left _ _
  | executionCompleted sid =>
    by_cases hc : sid = s.submissionId <;>
      simp only [processEvent, hc, emitComplete, reduceIte, le_refl]
    · exact h100
  | executionError sid message => exact le_refl _

theorem processEvent_floor_le_100 (s : TrackerState) (e : Event) (now : ℤ)
    (h100 : s.progressFloor ≤ 100) :
    (processEvent s e now).1.progressFloor ≤ 100 := by
  cases e with
  | executionStarted sid =>
    by_cases hc : sid = s.submissionId <;>
      simp only [processEvent, hc, emitFloored, reduceIte]
    · exact max_le (by norm_num) ((clamp99_le _).trans (by norm_num))
    · exact h100
  | nodesCached sid nodes =>
    by_cases hc : sid = s.submissionId <;>
      simp only [processEvent, hc, emitFloored, foldl_markCompleted_floor, reduceIte]
    · exact max_le h100 ((clamp99_le _).trans (by norm_num))
    · exact h100
  | nodeExecuted sid node =>
    by_cases hc : sid = s.submissionId <;>
      simp only [processEvent, hc, emitFloored, markCompleted_floor, reduceIte]
    · exact max_le h100 ((clamp99_le _).trans (by norm_num))
    · exact h100
  | stepProgress sid current mx =>
    by_cases hc : sid = s.submissionId <;>
      simp only [processEvent, hc, emitFloored, reduceIte]
    · exact max_le h100 ((clamp99_le _).trans (by norm_num))
    · exact h100
  | executionCompleted sid =>
    by_cases hc : sid = s.submissionId <;>
      simp only [processEvent, hc, emitComplete, reduceIte]
    · exact le_refl _
    · exact h100
  | executionError sid message => exact h100

theorem processEvent_emit_eq_floor (s : TrackerState) (e : Event) (now : ℤ)
    (em : Emission) (h : (processEvent s e now).2 = some em) :
    em.progressPercent = (processEvent s e now).1.progressFloor := by
  cases e with
  | executionStarted sid =>
    by_cases hc : sid = s.submissionId <;>
      simp only [processEvent, hc, emitFloored, mkEmission, reduceIte,
        Option.some.injEq, reduceCtorEq] at h ⊢
    · rw [← h]
  | nodesCached sid nodes =>
    by_cases hc : sid = s.submissionId <;>
      simp only [processEvent, hc, emitFloored, mkEmission, reduceIte,
        Option.some.injEq, reduceCtorEq] at h ⊢
    · rw [← h]
  | nodeExecuted sid node =>
    by_cases hc : sid = s.submissionId <;>
      simp only [processEvent, hc, emitFloored, mkEmission, reduceIte,
        Option.some.injEq, reduceCtorEq] at h ⊢
    · rw [← h]
  | stepProgress sid current mx =>
    by_cases hc : sid = s.submissionId <;>
      simp only [processEvent, hc, emitFloored, mkEmission, reduceIte,
        Option.some.injEq, reduceCtorEq] at h ⊢
    · rw [← h]
  | executionCompleted sid =>
    by_cases hc : sid = s.submissionId <;>
      simp only [processEvent, hc, emitComplete, mkEmission, reduceIte,
        Option.some.injEq, reduceCtorEq] at h ⊢
    · rw [← h]
  | executionError sid message => exact absurd h (by simp [processEvent])

theorem processEvents_ge_floor (es : List (Event × ℤ)) (s : TrackerState)
    (h100 : s.progressFloor ≤ 100)
    (hs : ∀ te ∈ es, isStart te.1 = false) :
    ∀ em ∈ (processEvents s es).2, s.progressFloor ≤ em.progressPercent := by
  induction es generalizing s with
  | nil => intro em hem; simp [processEvents] at hem
  | cons te rest ih =>
    intro em hem
    have hne : isStart te.1 = false := hs te (List.mem_cons_self _ _)
    have h100n := processEvent_floor_le_100 s te.1 te.2 h100
    have hmono := processEvent_floor_mono s te.1 te.2 hne h100
    have hem2 : em ∈ (processEvent s te.1 te.2).2.toList ++
        (processEvents (processEvent s te.1 te.2).1 rest).2 := hem
    rcases List.mem_append.1 hem2 with hh | hh
    · cases hopt : (processEvent s te.1 te.2).2 with
      | none => rw [hopt] at hh; simp at hh
      | some em1 =>
        rw [hopt] at hh
        simp only [Option.toList_some, List.mem_singleton] at hh
        subst hh
        rw [processEvent_emit_eq_floor s te.1 te.2 em hopt]
        exact hmono
    · exact le_trans hmono
        (ih (processEvent s te.1 te.2).1 h100n
          (fun x hx => hs x (List.mem_cons_of_mem _ hx)) em hh)

@[simp] theorem emitFloored_fst_completedWeight (s : TrackerState) (c : ℚ)
    (g : String) (now : ℤ) :
    (emitFloored s c g now).1.completedWeight = s.completedWeight := rfl

@[simp] theorem emitFloored_fst_completedNodeIds (s : TrackerState) (c : ℚ)
    (g : String) (now : ℤ) :
    (emitFloored s c g now).1.completedNodeIds = s.completedNodeIds := rfl

@[simp] theorem emitFloored_fst_submissionId (s : TrackerState) (c : ℚ)
    (g : String) (now : ℤ) :
    (emitFloored s c g now).1.submissionId = s.submissionId := rfl

@[simp] theorem emitFloored_fst_graph (s : TrackerState) (c : ℚ)
    (g : String) (now : ℤ) :
    (emitFloored s c g now).1.graph = s.graph := rfl

@[simp] theorem emitFloored_fst_totalWeight (s : TrackerState) (c : ℚ)
    (g : String) (now : ℤ) :
    (emitFloored s c g now).1.totalWeight = s.totalWeight := rfl

theorem markCompleted_of_mem (s : TrackerState) (id : String)
    (h : normalizeId id ∈ s.completedNodeIds) : markCompleted s id = s := by
  simp [markCompleted, h]

theorem mem_markCompleted (s : TrackerState) (id : String) :
    normalizeId id ∈ (markCompleted s id).completedNodeIds := by
  by_cases h : normalizeId id ∈ s.completedNodeIds <;> simp [markCompleted, h]

theorem processEvent_nodeExecuted_fst (s : TrackerState) (sid id : String)
    (now : ℤ) (h : sid = s.submissionId) :
    (processEvent s (.nodeExecuted sid id) now).1 =
      (emitFloored (markCompleted s id) (progressCandidate (markCompleted s id) 0)
        (stageLabelOf (markCompleted s id).graph id) now).1 := by
  simp [processEvent, h]

theorem processEvent_nodesCached_fst (s : TrackerState) (sid : String)
    (nodes : List String) (now : ℤ) (h : sid = s.submissionId) :
    (processEvent s (.nodesCached sid nodes) now).1 =
      (emitFloored (nodes.foldl markCompleted s)
        (progressCandidate (nodes.foldl markCompleted s) 0) "Processing..." now).1 := by
  simp [processEvent, h]

end SpecTracker

/-- C1: for any sequence of events delivered to one tracker instance that
contains no intervening `ExecutionStarted` reset, the `progressPercent` values
emitted to the registered callback are non-decreasing: every candidate is
compared against `progressFloor` and the larger value is emitted and recorded.
The hypothesis `progressFloor ≤ 100` holds for every reachable instance (the
floor starts at 0 and only ever takes emitted values, which are at most 100). -/
theorem SpecTracker.progress_monotone (s : SpecTracker.TrackerState)
    (es : List (SpecTracker.Event × ℤ)) (h100 : s.progressFloor ≤ 100)
    (hs : ∀ te ∈ es, SpecTracker.isStart te.1 = false) :
    List.Chain' (fun a b => a.progressPercent ≤ b.progressPercent)
      (SpecTracker.processEvents s es).2 := by
  induction es generalizing s with
  | nil => simp [SpecTracker.processEvents]
  | cons te rest ih =>
    have hne : SpecTracker.isStart te.1 = false := hs te (List.mem_cons_self _ _)
    have h100n := SpecTracker.processEvent_floor_le_100 s te.1 te.2 h100
    have hrest : ∀ x ∈ rest, SpecTracker.isStart x.1 = false :=
      fun x hx => hs x (List.mem_cons_of_mem _ hx)
    show List.Chain' _ ((SpecTracker.processEvent s te.1 te.2).2.toList ++
      (SpecTracker.processEvents (SpecTracker.processEvent s te.1 te.2).1 rest).2)
    cases hopt : (SpecTracker.processEvent s te.1 te.2).2 with
    | none => simpa using ih _ h100n hrest
    | some em =>
      simp only [Option.toList_some, List.singleton_append]
      refine List.chain'_cons'.2 ⟨?_, ih _ h100n hrest⟩
      intro b hb
      have hbmem : b ∈ (SpecTracker.processEvents
          (SpecTracker.processEvent s te.1 te.2).1 rest).2 := List.mem_of_mem_head? hb
      rw [SpecTracker.processEvent_emit_eq_floor s te.1 te.2 em hopt]
      exact SpecTracker.processEvents_ge_floor rest _ h100n hrest b hbmem

/-- Witness for C1 at a concrete tracker instance and event trace. -/
theorem SpecTracker.progress_monotone_witness :
    List.Chain' (fun a b => a.progressPercent ≤ b.progressPercent)
      (SpecTracker.processEvents SpecTracker.sampleTracker SpecTracker.sampleEvents).2 :=
  SpecTracker.progress_monotone SpecTracker.sampleTracker SpecTracker.sampleEvents
    (by decide) (by decide)

/-- C3: weight accounting is idempotent per normalized node id: a `NodeExecuted`
for a node followed by a `NodesCached` listing it (or the two in the reverse
order) leaves `completedWeight` equal to what a single occurrence produces, the
two single occurrences agree, and re-observing an already-completed node never
adds its weight again. -/
theorem SpecTracker.weight_accounting_idempotent (s : SpecTracker.TrackerState)
    (id : String) (t1 t2 : ℤ) :
    ((SpecTracker.processEvents s
        [(.nodeExecuted s.submissionId id, t1), (.nodesCached s.submissionId [id], t2)]).1.completedWeight
      = (SpecTracker.processEvent s (.nodeExecuted s.submissionId id) t1).1.completedWeight)
    ∧ ((SpecTracker.processEvents s
        [(.nodesCached s.submissionId [id], t1), (.nodeExecuted s.submissionId id, t2)]).1.completedWeight
      = (SpecTracker.processEvent s (.nodesCached s.submissionId [id]) t1).1.completedWeight)
    ∧ ((SpecTracker.processEvent s (.nodeExecuted s.submissionId id) t1).1.completedWeight
      = (SpecTracker.processEvent s (.nodesCached s.submissionId [id]) t1).1.completedWeight)
    ∧ (normalizeId id ∈ s.completedNodeIds →
      (SpecTracker.processEvent s (.nodeExecuted s.submissionId id) t1).1.completedWeight
        = s.completedWeight) := by
  have hfst1 := SpecTracker.processEvent_nodeExecuted_fst s s.submissionId id t1 rfl
  have hfstc := SpecTracker.processEvent_nodesCached_fst s s.submissionId [id] t1 rfl
  refine ⟨?_, ?_, ?_, ?_⟩
  · have ha : (SpecTracker.processEvents s
        [(.nodeExecuted s.submissionId id, t1), (.nodesCached s.submissionId [id], t2)]).1
        = (SpecTracker.processEvent
            (SpecTracker.processEvent s (.nodeExecuted s.submissionId id) t1).1
            (.nodesCached s.submissionId [id]) t2).1 := by
      simp [SpecTracker.processEvents]
    rw [ha, hfst1]
    have hsid : s.submissionId =
        (SpecTracker.emitFloored (SpecTracker.markCompleted s id)
          (SpecTracker.progressCandidate (SpecTracker.markCompleted s id) 0)
          (SpecTracker.stageLabelOf (SpecTracker.markCompleted s id).graph id) t1).1.submissionId := by
      simp [SpecTracker.markCompleted_submissionId]
    rw [hsid, SpecTracker.processEvent_nodesCached_fst _ _ _ t2 rfl]
    simp only [List.foldl_cons, List.foldl_nil, SpecTracker.emitFloored_fst_completedWeight]
    rw [SpecTracker.markCompleted_of_mem]
    · rfl
    · simpa using SpecTracker.mem_markCompleted s id
  · have ha : (SpecTracker.processEvents s
        [(.nodesCached s.submissionId [id], t1), (.nodeExecuted s.submissionId id, t2)]).1
        = (SpecTracker.processEvent
            (SpecTracker.processEvent s (.nodesCached s.submissionId [id]) t1).1
            (.nodeExecuted s.submissionId id) t2).1 := by
      simp [SpecTracker.processEvents]
    rw [ha, hfstc]
    have hsid : s.submissionId =
        (SpecTracker.emitFloored ([id].foldl SpecTracker.markCompleted s)
          (SpecTracker.progressCandidate ([id].foldl SpecTracker.markCompleted s) 0)
          "Processing..." t1).1.submissionId := by
      simp [SpecTracker.markCompleted_submissionId]
    rw [hsid, SpecTracker.processEvent_nodeExecuted_fst _ _ _ t2 rfl]
    simp only [List.foldl_cons, List.foldl_nil, SpecTracker.emitFloored_fst_completedWeight]
    rw [SpecTracker.markCompleted_of_mem]
    · rfl
    · simpa using SpecTracker.mem_markCompleted s id
  · rw [hfst1, hfstc]
    simp
  · intro hmem
    rw [hfst1, SpecTracker.emitFloored_fst_completedWeight,
      SpecTracker.markCompleted_of_mem s id hmem]

/-- Witness for C3 at a concrete tracker state and a node id already completed
there. -/
theorem SpecTracker.weight_accounting_idempotent_witness :
    normalizeId "5:1" ∈
      ({ SpecTracker.sampleTracker with
          completedNodeIds := {"5"} } : SpecTracker.TrackerState).completedNodeIds
    ∧ (SpecTracker.processEvent
          { SpecTracker.sampleTracker with completedNodeIds := {"5"} }
          (.nodeExecuted SpecTracker.sampleTracker.submissionId "5:1") 7).1.completedWeight
        = ({ SpecTracker.sampleTracker with
              completedNodeIds := {"5"} } : SpecTracker.TrackerState).completedWeight :=
  ⟨by decide,
    (SpecTracker.weight_accounting_idempotent
      { SpecTracker.sampleTracker with completedNodeIds := {"5"} } "5:1" 7 8).2.2.2
      (by decide)⟩

/-- C4: the `StepProgress` candidate while a submission with positive total
weight is in flight is
`(completedWeight + weight(samplingType) × current/max) / totalWeight × 100`;
with zero total weight it falls back to the completed-node-count ratio; the
emission carries the step counters in its label. -/
theorem SpecTracker.stepProgress_formula (s : SpecTracker.TrackerState)
    (current mx : ℕ) (now : ℤ) :
    ((SpecTracker.processEvent s (.stepProgress s.submissionId current mx) now).2 =
      some (SpecTracker.mkEmission
        (max s.progressFloor (SpecTracker.clamp99 (SpecTracker.stepCandidate s current mx)))
        ("Generating (step " ++ toString current ++ "/" ++ toString mx ++ ")")
        (now - s.startTime)))
    ∧ (0 < s.totalWeight →
      SpecTracker.stepCandidate s current mx =
        ((s.completedWeight : ℚ) +
            (weightFor s.samplingType : ℚ) * ((current : ℚ) / (mx : ℚ)))
          / (s.totalWeight : ℚ) * 100)
    ∧ (s.totalWeight = 0 → 0 < s.graph.length →
      SpecTracker.stepCandidate s current mx =
        (s.completedNodeIds.card : ℚ) / (s.graph.length : ℚ) * 100) := by
  refine ⟨?_, fun h => ?_, fun h0 hg => ?_⟩
  · simp [SpecTracker.processEvent, SpecTracker.emitFloored]
  · simp [SpecTracker.stepCandidate, SpecTracker.progressCandidate, h]
  · simp [SpecTracker.stepCandidate, SpecTracker.progressCandidate, h0, hg]

/-- Witness for C4 at a concrete in-flight tracker with positive total weight. -/
theorem SpecTracker.stepProgress_formula_witness :
    0 < SpecTracker.sampleTracker.totalWeight
    ∧ SpecTracker.stepCandidate SpecTracker.sampleTracker 5 10 =
        ((SpecTracker.sampleTracker.completedWeight : ℚ) +
            (weightFor SpecTracker.sampleTracker.samplingType : ℚ) *
              (((5 : ℕ) : ℚ) / ((10 : ℕ) : ℚ)))
          / (SpecTracker.sampleTracker.totalWeight : ℚ) * 100 :=
  ⟨by decide, (SpecTracker.stepProgress_formula SpecTracker.sampleTracker 5 10 4).2.1
    (by decide)⟩

namespace SpecTracker

theorem markCompleted_subset (s : TrackerState) (id : String) :
    s.completedNodeIds ⊆ (markCompleted s id).completedNodeIds := by
  by_cases h : normalizeId id ∈ s.completedNodeIds
  · rw [markCompleted_of_mem s id h]
  · have hmk : (markCompleted s id).completedNodeIds =
        insert (normalizeId id) s.completedNodeIds := by simp [markCompleted, h]
    rw [hmk]
    exact Finset.subset_insert _ _

theorem foldl_markCompleted_subset (nodes : List String) (s : TrackerState) :
    s.completedNodeIds ⊆ (nodes.foldl markCompleted s).completedNodeIds := by
  induction nodes generalizing s with
  | nil => exact subset_refl _
  | cons a t ih =>
    rw [List.foldl_cons]
    exact (markCompleted_subset s a).trans (ih (markCompleted s a))

theorem foldl_markCompleted_mem (nodes : List String) (s : TrackerState) :
    ∀ id ∈ nodes, normalizeId id ∈ (nodes.foldl markCompleted s).completedNodeIds := by
  induction nodes generalizing s with
  | nil => intro id h; simp at h
  | cons a t ih =>
    intro id h
    rw [List.foldl_cons]
    rcases List.mem_cons.1 h with rfl | h2
    · exact foldl_markCompleted_subset t (markCompleted s id) (mem_markCompleted s id)
    · exact ih (markCompleted s a) id h2

theorem foldl_markCompleted_graph (nodes : List String) (s : TrackerState) :
    (nodes.foldl markCompleted s).graph = s.graph := by
  induction nodes generalizing s with
  | nil => rfl
  | cons a t ih => rw [List.foldl_cons, ih, markCompleted_graph]

theorem foldl_markCompleted_startTime (nodes : List String) (s : TrackerState) :
    (nodes.foldl markCompleted s).startTime = s.startTime := by
  induction nodes generalizing s with
  | nil => rfl
  | cons a t ih => rw [List.foldl_cons, ih, markCompleted_startTime]

theorem foldl_markCompleted_weight (nodes : List String) (s : TrackerState) :
    (nodes.foldl markCompleted s).completedWeight = s.completedWeight +
      ∑ n in ((nodes.foldl markCompleted s).completedNodeIds \ s.completedNodeIds),
        weightOfKey s.graph n := by
  induction nodes generalizing s with
  | nil => simp [List.foldl_nil]
  | cons a t ih =>
    rw [List.foldl_cons]
    by_cases h : normalizeId a ∈ s.completedNodeIds
    · rw [markCompleted_of_mem s a h]
      exact ih s
    · have hmk : markCompleted s a =
          { s with completedNodeIds := insert (normalizeId a) s.completedNodeIds,
                   completedWeight := s.completedWeight + weightOfNode s.graph a } := by
        simp [markCompleted, h]
      have hgr : (markCompleted s a).graph = s.graph := markCompleted_graph s a
      have hsub := foldl_markCompleted_subset t (markCompleted s a)
      have hmemn : normalizeId a ∈ (t.foldl markCompleted (markCompleted s a)).completedNodeIds :=
        hsub (mem_markCompleted s a)
      have hset : (t.foldl markCompleted (markCompleted s a)).completedNodeIds \ s.completedNodeIds
          = insert (normalizeId a)
              ((t.foldl markCompleted (markCompleted s a)).completedNodeIds \
                (markCompleted s a).completedNodeIds) := by
        rw [hmk]
        ext x
        simp only [Finset.mem_sdiff, Finset.mem_insert]
        constructor
        · rintro ⟨hx1, hx2⟩
          by_cases hxa : x = normalizeId a
          · exact Or.inl hxa
          · exact Or.inr ⟨hx1, by simp [hxa, hx2]⟩
        · rintro (rfl | ⟨hx1, hx2⟩)
          · refine ⟨by simpa [hmk] using hmemn, h⟩
          · exact ⟨hx1, fun hxs => hx2 (Or.inr hxs)⟩
      have hnotmem : normalizeId a ∉
          ((t.foldl markCompleted (markCompleted s a)).completedNodeIds \
            (markCompleted s a).completedNodeIds) := by
        simp [Finset.mem_sdiff, mem_markCompleted s a]
      calc (t.foldl markCompleted (markCompleted s a)).completedWeight
          = (markCompleted s a).completedWeight +
            ∑ n in ((t.foldl markCompleted (markCompleted s a)).completedNodeIds \
              (markCompleted s a).completedNodeIds),
                weightOfKey (markCompleted s a).graph n := ih (markCompleted s a)
        _ = s.completedWeight + weightOfKey s.graph (normalizeId a) +
            ∑ n in ((t.foldl markCompleted (markCompleted s a)).completedNodeIds \
              (markCompleted s a).completedNodeIds),
                weightOfKey s.graph n := by
              rw [hgr, hmk]
              dsimp only
              simp only [weightOfNode, weightOfKey, typeTagOf]
        _ = s.completedWeight +
            ∑ n in ((t.foldl markCompleted (markCompleted s a)).completedNodeIds \
              s.completedNodeIds), weightOfKey s.graph n := by
              rw [hset, Finset.sum_insert hnotmem]
              ring

end SpecTracker

theorem jsRound_zero : jsRound 0 = 0 :=
  jsRound_eq (by norm_num) (by norm_num)

/-- C6: a `NodesCached` event for the tracked submission marks every listed
normalized node id completed, adds the weights of the not-yet-completed ones to
`completedWeight` (summed over the newly completed ids), and produces exactly
one progress emission, labeled with the generic `"Processing..."` stage. -/
theorem SpecTracker.nodesCached_effect (s : SpecTracker.TrackerState)
    (nodes : List String) (now : ℤ) :
    ((SpecTracker.processEvent s (.nodesCached s.submissionId nodes) now).2 =
      some (SpecTracker.mkEmission
        (max s.progressFloor (SpecTracker.clamp99
          (SpecTracker.progressCandidate (nodes.foldl SpecTracker.markCompleted s) 0)))
        "Processing..." (now - s.startTime)))
    ∧ (∀ id ∈ nodes, normalizeId id ∈
        (SpecTracker.processEvent s (.nodesCached s.submissionId nodes) now).1.completedNodeIds)
    ∧ (s.completedNodeIds ⊆
        (SpecTracker.processEvent s (.nodesCached s.submissionId nodes) now).1.completedNodeIds)
    ∧ ((SpecTracker.processEvent s (.nodesCached s.submissionId nodes) now).1.completedWeight
        = s.completedWeight +
          ∑ n in ((SpecTracker.processEvent s
              (.nodesCached s.submissionId nodes) now).1.completedNodeIds \ s.completedNodeIds),
            SpecTracker.weightOfKey s.graph n) := by
  have hfst := SpecTracker.processEvent_nodesCached_fst s s.submissionId nodes now rfl
  refine ⟨?_, ?_, ?_, ?_⟩
  · simp [SpecTracker.processEvent, SpecTracker.emitFloored,
      SpecTracker.foldl_markCompleted_floor, SpecTracker.foldl_markCompleted_startTime]
  · intro id hid
    rw [hfst, SpecTracker.emitFloored_fst_completedNodeIds]
    exact SpecTracker.foldl_markCompleted_mem nodes s id hid
  · rw [hfst, SpecTracker.emitFloored_fst_completedNodeIds]
    exact SpecTracker.foldl_markCompleted_subset nodes s
  · rw [hfst, SpecTracker.emitFloored_fst_completedWeight,
      SpecTracker.emitFloored_fst_completedNodeIds]
    exact SpecTracker.foldl_markCompleted_weight nodes s

/-- Witness for C6 at a concrete tracker and cached-node list containing a
composite id. -/
theorem SpecTracker.nodesCached_effect_witness :
    "A:7" ∈ (["B", "A:7"] : List String)
    ∧ normalizeId "A:7" ∈
        (SpecTracker.processEvent SpecTracker.sampleTracker
          (.nodesCached SpecTracker.sampleTracker.submissionId ["B", "A:7"]) 2).1.completedNodeIds :=
  ⟨by decide,
    (SpecTracker.nodesCached_effect SpecTracker.sampleTracker ["B", "A:7"] 2).2.1
      "A:7" (by decide)⟩

/-- C9: progress computation never divides by zero — with `totalWeight = 0` the
candidate is the completed-to-total node-count ratio, with a zero node count it
is the well-defined value `0`, and a tracker for an empty graph (floor still 0)
emits exactly `0` on a step event. -/
theorem SpecTracker.zero_division_guard (s : SpecTracker.TrackerState)
    (current mx : ℕ) (now : ℤ) :
    (s.totalWeight = 0 → 0 < s.graph.length →
      ∀ extra : ℚ, SpecTracker.progressCandidate s extra =
        (s.completedNodeIds.card : ℚ) / (s.graph.length : ℚ) * 100)
    ∧ (s.totalWeight = 0 → s.graph.length = 0 →
      ∀ extra : ℚ, SpecTracker.progressCandidate s extra = 0)
    ∧ (s.totalWeight = 0 → s.graph = [] → s.progressFloor = 0 →
      (SpecTracker.processEvent s (.stepProgress s.submissionId current mx) now).2 =
        some (SpecTracker.mkEmission 0
          ("Generating (step " ++ toString current ++ "/" ++ toString mx ++ ")")
          (now - s.startTime))) := by
  refine ⟨fun h0 hg extra => ?_, fun h0 hg extra => ?_, fun h0 hg hf => ?_⟩
  · simp [SpecTracker.progressCandidate, h0, hg]
  · simp [SpecTracker.progressCandidate, h0, hg]
  · have hcand : SpecTracker.stepCandidate s current mx = 0 := by
      simp [SpecTracker.stepCandidate, SpecTracker.progressCandidate, h0, hg]
    have hclamp : SpecTracker.clamp99 (SpecTracker.stepCandidate s current mx) = 0 := by
      rw [hcand]
      simp [SpecTracker.clamp99, jsRound_zero]
    simp [SpecTracker.processEvent, SpecTracker.emitFloored, hclamp, hf]


/-- Witness for C9 at the empty-graph tracker. -/
theorem SpecTracker.zero_division_guard_witness :
    (SpecTracker.processEvent SpecTracker.emptyTracker
        (.stepProgress SpecTracker.emptyTracker.submissionId 3 7) 5).2 =
      some (SpecTracker.mkEmission 0
        ("Generating (step " ++ toString (3 : ℕ) ++ "/" ++ toString (7 : ℕ) ++ ")")
        (5 - SpecTracker.emptyTracker.startTime)) :=
  (SpecTracker.zero_division_guard SpecTracker.emptyTracker 3 7 5).2.2
    (by decide) (by decide) (by decide)

namespace ComfyUIClient


@[simp] theorem reportProgress_progress (st : State) (p : ℤ) (stage : String)
    (now : ℤ) : (reportProgress st p stage now).progress = p := by
  by_cases h : 0 < p ∧ p < 100 <;> simp [reportProgress, h]

@[simp] theorem reportProgress_elapsedSeconds (st : State) (p : ℤ) (stage : String)
    (now : ℤ) : (reportProgress st p stage now).elapsedSeconds =
      jsRound (((now - st.startTime : ℤ) : ℚ) / 1000) := by
  by_cases h : 0 < p ∧ p < 100 <;> simp [reportProgress, h]

@[simp] theorem updateProgress_progress (st : State) (lastNodeId : Option String)
    (now : ℤ) : (updateProgress st lastNodeId now).progress =
      min 99 (jsRound ((st.executedNodes.card : ℚ) / (st.totalNodes : ℚ) * 100)) := by
  simp [updateProgress]

theorem min99_bounds {x : ℚ} (hx : 0 ≤ x) :
    0 ≤ min 99 (jsRound x) ∧ min 99 (jsRound x) ≤ 99 :=
  ⟨le_min (by norm_num) (jsRound_nonneg hx), min_le_left _ _⟩

end ComfyUIClient

/-- C2: with a nonempty workflow (`totalNodes > 0`) and sane step counters,
every tuple emitted for a non-terminal message has `progress` in `[0, 99]`,
and the completion message (`executing` with `node === null`) emits exactly
`100`. -/
theorem ComfyUIClient.progress_bounds (st : ComfyUIClient.State)
    (msg : ComfyUIClient.Msg) (now : ℤ) (hT : 0 < st.totalNodes) :
    (ComfyUIClient.isTerminalMsg msg = false → ComfyUIClient.stepPayloadOk msg →
      ∀ em ∈ (ComfyUIClient.handleMessage st msg now).2,
        0 ≤ em.progress ∧ em.progress ≤ 99)
    ∧ (∀ pid, st.promptId = some pid →
      (ComfyUIClient.handleMessage st (.executing pid none) now).2 =
        some (ComfyUIClient.reportProgress st 100 "Complete" now)
      ∧ (ComfyUIClient.reportProgress st 100 "Complete" now).progress = 100) := by
  constructor
  · intro hnt hok em hem
    have hcount : (0 : ℚ) ≤ (st.executedNodes.card : ℚ) / (st.totalNodes : ℚ) * 100 := by
      positivity
    cases msg with
    | executionStart pid =>
      by_cases hc : st.promptId = some pid
      · simp only [ComfyUIClient.handleMessage, hc, reduceIte, Option.mem_def,
          Option.some.injEq] at hem
        rw [← hem]
        simp
      · simp [ComfyUIClient.handleMessage, hc] at hem
    | executionCached pid nodes =>
      by_cases hc : st.promptId = some pid
      · simp only [ComfyUIClient.handleMessage, hc, reduceIte, Option.mem_def,
          Option.some.injEq] at hem
        rw [← hem]
        rw [ComfyUIClient.updateProgress_progress]
        exact ComfyUIClient.min99_bounds (by positivity)
      · simp [ComfyUIClient.handleMessage, hc] at hem
    | executing pid node =>
      cases node with
      | none => simp [ComfyUIClient.isTerminalMsg] at hnt
      | some n => simp [ComfyUIClient.handleMessage] at hem
    | executed pid node =>
      cases node with
      | none => simp [ComfyUIClient.handleMessage] at hem
      | some n =>
        simp only [ComfyUIClient.handleMessage, Option.mem_def] at hem
        split at hem
        · simp only [Option.some.injEq] at hem
          rw [← hem, ComfyUIClient.updateProgress_progress]
          exact ComfyUIClient.min99_bounds (by positivity)
        · simp at hem
    | progress pid value mx =>
      rcases hok with ⟨hv, hm⟩
      by_cases hc : st.promptId = some pid
      · simp only [ComfyUIClient.handleMessage, hc, reduceIte, Option.mem_def,
          Option.some.injEq] at hem
        rw [← hem]
        rw [ComfyUIClient.reportProgress_progress]
        refine ComfyUIClient.min99_bounds ?_
        have h1 : (0 : ℚ) ≤ (jsRound ((st.executedNodes.card : ℚ) /
            (st.totalNodes : ℚ) * 100) : ℚ) := by
          exact_mod_cast jsRound_nonneg hcount
        have h2 : (0 : ℚ) ≤ ((value : ℚ) / (mx : ℚ)) * (100 / (st.totalNodes : ℚ)) := by
          have hv2 : (0 : ℚ) ≤ (value : ℚ) := by exact_mod_cast hv
          have hm2 : (0 : ℚ) ≤ (mx : ℚ) := by exact_mod_cast hm.le
          have ht2 : (0 : ℚ) ≤ (st.totalNodes : ℚ) := by positivity
          exact mul_nonneg (div_nonneg hv2 hm2) (div_nonneg (by norm_num) ht2)
        linarith
      · simp [ComfyUIClient.handleMessage, hc] at hem
    | executionError pid => simp [ComfyUIClient.handleMessage] at hem
  · intro pid hpid
    refine ⟨?_, ComfyUIClient.reportProgress_progress st 100 "Complete" now⟩
    simp [ComfyUIClient.handleMessage, hpid]

/-- Witness for C2 at a concrete client state, cached-nodes message, and the
completion message. -/
theorem ComfyUIClient.progress_bounds_witness :
    0 < (ComfyUIClient.queuePrompt ComfyUIClient.initialState
        [("1", "KSampler"), ("2", "SaveImage")] 1000 "p1").totalNodes
    ∧ (ComfyUIClient.isTerminalMsg (.executionCached "p1" ["1"]) = false →
        ComfyUIClient.stepPayloadOk (.executionCached "p1" ["1"]) →
        ∀ em ∈ (ComfyUIClient.handleMessage
            (ComfyUIClient.queuePrompt ComfyUIClient.initialState
              [("1", "KSampler"), ("2", "SaveImage")] 1000 "p1")
            (.executionCached "p1" ["1"]) 3000).2,
          0 ≤ em.progress ∧ em.progress ≤ 99) :=
  ⟨by decide,
    (ComfyUIClient.progress_bounds
      (ComfyUIClient.queuePrompt ComfyUIClient.initialState
        [("1", "KSampler"), ("2", "SaveImage")] 1000 "p1")
      (.executionCached "p1" ["1"]) 3000 (by decide)).1⟩

/-- C5: for every emission with final progress `p`, if `0 < p < 100` then
`estimatedTotalSeconds = round(elapsedSeconds / p * 100)` and
`estimatedRemainingSeconds = max(0, estimatedTotalSeconds - elapsedSeconds)`;
at `p = 0` and at `p = 100` both estimates are exactly `0`. -/
theorem ComfyUIClient.eta_formula (st : ComfyUIClient.State) (p : ℤ)
    (stage : String) (now : ℤ) :
    (0 < p → p < 100 →
      (ComfyUIClient.reportProgress st p stage now).estimatedTotalSeconds =
        jsRound (((ComfyUIClient.reportProgress st p stage now).elapsedSeconds : ℚ)
          / (p : ℚ) * 100)
      ∧ (ComfyUIClient.reportProgress st p stage now).estimatedRemainingSeconds =
        max 0 ((ComfyUIClient.reportProgress st p stage now).estimatedTotalSeconds -
          (ComfyUIClient.reportProgress st p stage now).elapsedSeconds))
    ∧ (p = 0 →
      (ComfyUIClient.reportProgress st p stage now).estimatedTotalSeconds = 0
      ∧ (ComfyUIClient.reportProgress st p stage now).estimatedRemainingSeconds = 0)
    ∧ (p = 100 →
      (ComfyUIClient.reportProgress st p stage now).estimatedTotalSeconds = 0
      ∧ (ComfyUIClient.reportProgress st p stage now).estimatedRemainingSeconds = 0) := by
  refine ⟨fun h1 h2 => ?_, fun h0 => ?_, fun h100 => ?_⟩
  · simp [ComfyUIClient.reportProgress, h1, h2]
  · subst h0; simp [ComfyUIClient.reportProgress]
  · subst h100; simp [ComfyUIClient.reportProgress]

/-- Witness for C5 at a strictly interior progress value. -/
theorem ComfyUIClient.eta_formula_witness :
    (0 : ℤ) < 50 ∧ (50 : ℤ) < 100
    ∧ ((ComfyUIClient.reportProgress ComfyUIClient.initialState 50 "x" 2000).estimatedTotalSeconds =
        jsRound (((ComfyUIClient.reportProgress ComfyUIClient.initialState 50 "x" 2000).elapsedSeconds : ℚ)
          / ((50 : ℤ) : ℚ) * 100)
      ∧ (ComfyUIClient.reportProgress ComfyUIClient.initialState 50 "x" 2000).estimatedRemainingSeconds =
        max 0 ((ComfyUIClient.reportProgress ComfyUIClient.initialState 50 "x" 2000).estimatedTotalSeconds -
          (ComfyUIClient.reportProgress ComfyUIClient.initialState 50 "x" 2000).elapsedSeconds)) :=
  ⟨by decide, by decide,
    (ComfyUIClient.eta_formula ComfyUIClient.initialState 50 "x" 2000).1
      (by decide) (by decide)⟩

/-- C10: in every tuple delivered to the callback, whenever the call instant is
not before `startTime` (so the elapsed time is non-negative),
`0 ≤ estimatedRemainingSeconds ≤ estimatedTotalSeconds`, for every progress
value. -/
theorem ComfyUIClient.eta_bounds (st : ComfyUIClient.State) (p : ℤ)
    (stage : String) (now : ℤ) (h : st.startTime ≤ now) :
    0 ≤ (ComfyUIClient.reportProgress st p stage now).estimatedRemainingSeconds
    ∧ (ComfyUIClient.reportProgress st p stage now).estimatedRemainingSeconds ≤
      (ComfyUIClient.reportProgress st p stage now).estimatedTotalSeconds := by
  have he : 0 ≤ jsRound (((now - st.startTime : ℤ) : ℚ) / 1000) := by
    refine jsRound_nonneg (div_nonneg ?_ (by norm_num))
    exact_mod_cast sub_nonneg.2 h
  by_cases hc : 0 < p ∧ p < 100
  · have ht : 0 ≤ jsRound ((jsRound (((now - st.startTime : ℤ) : ℚ) / 1000) : ℚ)
        / (p : ℚ) * 100) := by
      refine jsRound_nonneg ?_
      have hp : (0 : ℚ) < (p : ℚ) := by exact_mod_cast hc.1
      have he2 : (0 : ℚ) ≤ (jsRound (((now - st.startTime : ℤ) : ℚ) / 1000) : ℚ) := by
        exact_mod_cast he
      positivity
    simp only [ComfyUIClient.reportProgress, hc, and_self, if_true, reduceIte]
    constructor
    · exact le_max_left _ _
    · exact max_le ht (by omega)
  · simp [ComfyUIClient.reportProgress, hc]

/-- Witness for C10 at a concrete state and call instant after the queue time. -/
theorem ComfyUIClient.eta_bounds_witness :
    ComfyUIClient.initialState.startTime ≤ 2500
    ∧ (0 ≤ (ComfyUIClient.reportProgress ComfyUIClient.initialState 37 "y" 2500).estimatedRemainingSeconds
      ∧ (ComfyUIClient.reportProgress ComfyUIClient.initialState 37 "y" 2500).estimatedRemainingSeconds ≤
        (ComfyUIClient.reportProgress ComfyUIClient.initialState 37 "y" 2500).estimatedTotalSeconds) :=
  ⟨by decide, ComfyUIClient.eta_bounds ComfyUIClient.initialState 37 "y" 2500 (by decide)⟩

/-- C7: a composite node identifier `"74:62"` is truncated at the first `:`
before completed-set membership and stage-label lookup (count-based client
from the source) and before weighting and labeling (spec-modelled graph
accessors): it is treated as node `"74"` of the submitted graph. -/
theorem ComfyUIClient.composite_id_owner (st : ComfyUIClient.State)
    (pid : String) (now : ℤ) (g : List (String × String))
    (h : st.promptId = some pid) :
    normalizeId "74:62" = "74"
    ∧ ComfyUIClient.getNodeClassType st "74:62" = ComfyUIClient.getNodeClassType st "74"
    ∧ ((ComfyUIClient.handleMessage st (.executed pid (some "74:62")) now).1.executedNodes =
        insert "74" st.executedNodes)
    ∧ ((ComfyUIClient.handleMessage st (.executionCached pid ["74:62"]) now).1.executedNodes =
        insert "74" st.executedNodes)
    ∧ ((ComfyUIClient.handleMessage st (.executed pid (some "74:62")) now).2 =
        some (ComfyUIClient.updateProgress
          { st with executedNodes := insert "74" st.executedNodes } (some "74") now))
    ∧ SpecTracker.weightOfNode g "74:62" = SpecTracker.weightOfNode g "74"
    ∧ SpecTracker.stageLabelOf g "74:62" = SpecTracker.stageLabelOf g "74" := by
  have hn : normalizeId "74:62" = "74" := by decide
  have hn2 : normalizeId "74" = "74" := by decide
  refine ⟨hn, ?_, ?_, ?_, ?_, ?_, ?_⟩
  · cases hw : st.workflow <;> simp [ComfyUIClient.getNodeClassType, hw, hn, hn2]
  · simp [ComfyUIClient.handleMessage, h, hn]
  · simp [ComfyUIClient.handleMessage, h, hn]
  · simp [ComfyUIClient.handleMessage, h, hn]
  · simp [SpecTracker.weightOfNode, SpecTracker.typeTagOf, hn, hn2]
  · simp [SpecTracker.stageLabelOf, SpecTracker.typeTagOf, hn, hn2]

/-- Witness for C7 at a concrete client state tracking a prompt whose graph
contains node `"74"`. -/
theorem ComfyUIClient.composite_id_owner_witness :
    (ComfyUIClient.queuePrompt ComfyUIClient.initialState
        [("74", "KSampler")] 0 "p1").promptId = some "p1"
    ∧ ((ComfyUIClient.handleMessage
        (ComfyUIClient.queuePrompt ComfyUIClient.initialState [("74", "KSampler")] 0 "p1")
        (.executed "p1" (some "74:62")) 1).1.executedNodes =
      insert "74" (ComfyUIClient.queuePrompt ComfyUIClient.initialState
        [("74", "KSampler")] 0 "p1").executedNodes) :=
  ⟨by decide,
    (ComfyUIClient.composite_id_owner
      (ComfyUIClient.queuePrompt ComfyUIClient.initialState [("74", "KSampler")] 0 "p1")
      "p1" 1 [("74", "KSampler")] (by decide)).2.2.1⟩

/-- C8 counterexample: in the source, `queuePrompt` sets `startTime` to the
queueing instant (here 5000 ms) and the `execution_start` handler leaves it
unchanged, so after the reset the tracked `startTime` is still the queue
instant, not the execution-start instant (9000 ms), and the reset emission
reports 4 elapsed seconds rather than 0. -/
theorem ComfyUIClient.startTime_queue_counterexample :
    (ComfyUIClient.queuePrompt ComfyUIClient.initialState
        [("1", "KSampler")] 5000 "p1").startTime = 5000
    ∧ ((ComfyUIClient.handleMessage
        (ComfyUIClient.queuePrompt ComfyUIClient.initialState [("1", "KSampler")] 5000 "p1")
        (.executionStart "p1") 9000).1.startTime = 5000)
    ∧ ¬ ((ComfyUIClient.handleMessage
        (ComfyUIClient.queuePrompt ComfyUIClient.initialState [("1", "KSampler")] 5000 "p1")
        (.executionStart "p1") 9000).1.startTime = 9000)
    ∧ (∃ em, (ComfyUIClient.handleMessage
        (ComfyUIClient.queuePrompt ComfyUIClient.initialState [("1", "KSampler")] 5000 "p1")
        (.executionStart "p1") 9000).2 = some em
      ∧ em.elapsedSeconds = 4 ∧ em.elapsedSeconds ≠ 0) := by
  refine ⟨rfl, ?_, ?_, ?_⟩
  · simp [ComfyUIClient.handleMessage, ComfyUIClient.queuePrompt, ComfyUIClient.initialState]
  · simp [ComfyUIClient.handleMessage, ComfyUIClient.queuePrompt, ComfyUIClient.initialState]
  · refine ⟨ComfyUIClient.reportProgress
        { ComfyUIClient.queuePrompt ComfyUIClient.initialState [("1", "KSampler")] 5000 "p1"
            with executedNodes := ∅ } 0 "Starting..." 9000, ?_, ?_, ?_⟩
    · simp [ComfyUIClient.handleMessage, ComfyUIClient.queuePrompt, ComfyUIClient.initialState]
    · rw [ComfyUIClient.reportProgress_elapsedSeconds]
      have h4 : (((9000 : ℤ) - (ComfyUIClient.queuePrompt ComfyUIClient.initialState
          [("1", "KSampler")] 5000 "p1").startTime : ℤ) : ℚ) / 1000 = 4 := by
        norm_num [ComfyUIClient.queuePrompt]
      rw [h4]
      exact jsRound_eq (by norm_num) (by norm_num)
    · rw [ComfyUIClient.reportProgress_elapsedSeconds]
      have h4 : (((9000 : ℤ) - (ComfyUIClient.queuePrompt ComfyUIClient.initialState
          [("1", "KSampler")] 5000 "p1").startTime : ℤ) : ℚ) / 1000 = 4 := by
        norm_num [ComfyUIClient.queuePrompt]
      rw [h4]
      have h5 : jsRound (4 : ℚ) = 4 := jsRound_eq (by norm_num) (by norm_num)
      rw [h5]
      norm_num

/-- C8 amended: `startTime` is set to the wall-clock instant at which the
submission is queued (`queuePrompt`), not on the `execution_start` event; the
execution-start reset clears `executedNodes` but leaves `startTime` unchanged,
and every emission's `elapsedSeconds` is measured from the queue instant. -/
theorem ComfyUIClient.startTime_set_at_queue (st st2 : ComfyUIClient.State)
    (wf : List (String × String)) (now now2 : ℤ) (npid pid : String)
    (h : st2.promptId = some pid) :
    (ComfyUIClient.queuePrompt st wf now npid).startTime = now
    ∧ (ComfyUIClient.handleMessage st2 (.executionStart pid) now2).1.startTime = st2.startTime
    ∧ (ComfyUIClient.handleMessage st2 (.executionStart pid) now2).1.executedNodes = ∅
    ∧ (ComfyUIClient.handleMessage st2 (.executionStart pid) now2).2 =
        some (ComfyUIClient.reportProgress
          { st2 with executedNodes := ∅ } 0 "Starting..." now2)
    ∧ ∀ p stage t, (ComfyUIClient.reportProgress st2 p stage t).elapsedSeconds =
        jsRound (((t - st2.startTime : ℤ) : ℚ) / 1000) := by
  refine ⟨rfl, ?_, ?_, ?_, ?_⟩
  · simp [ComfyUIClient.handleMessage, h]
  · simp [ComfyUIClient.handleMessage, h]
  · simp [ComfyUIClient.handleMessage, h]
  · intro p stage t
    exact ComfyUIClient.reportProgress_elapsedSeconds st2 p stage t

/-- Witness for the amended C8 at a concrete client state. -/
theorem ComfyUIClient.startTime_set_at_queue_witness :
    (ComfyUIClient.queuePrompt ComfyUIClient.initialState
        [("1", "KSampler")] 5000 "p1").promptId = some "p1"
    ∧ (ComfyUIClient.handleMessage
        (ComfyUIClient.queuePrompt ComfyUIClient.initialState [("1", "KSampler")] 5000 "p1")
        (.executionStart "p1") 9000).1.startTime =
      (ComfyUIClient.queuePrompt ComfyUIClient.initialState
        [("1", "KSampler")] 5000 "p1").startTime :=
  ⟨by decide,
    (ComfyUIClient.startTime_set_at_queue ComfyUIClient.initialState
      (ComfyUIClient.queuePrompt ComfyUIClient.initialState [("1", "KSampler")] 5000 "p1")
      [("1", "KSampler")] 5000 9000 "p1" "p1" (by decide)).2.1⟩

example : normalizeId "74:62" = "74" := by decide
example : normalizeId "74" = "74" := by decide
